import Mathlib

/-!
Shallow embedding of `EigenCalculator.py` (repository Cheezcuits/EigenCalculator).

The Python program computes the eigendecomposition of a small square matrix
with sympy and renders a 2D projection of the real eigenvectors as SVG.
The embedding below mirrors the three relevant parts of the source:

* PART 0 (`EigenObject.__init__` / `to_dict`)     → `mkEigenObject`
* PART 1 (`calculate_eigen_data`)                 → `calculate_eigen_data`
* PART 2 (`generate_eigen_svg` and its helpers)   → `generate_eigen_svg`,
  `project`, `normalize`, `svgStep`, ...

Modelling conventions, stated once here:

* sympy exact numbers that actually occur in this pipeline are modelled by
  Gaussian rationals `GaussQ` (a pair of rationals, re + im*I).  The numeric
  evaluation `N(x)` of such a value is the value itself (floats are idealized
  as exact numbers; binary floating point is not modelled).
* the sympy engine (the results of `Matrix.eigenvals`, `Matrix.nullspace`,
  and the textual forms of the characteristic polynomial) is an external
  dependency of the source file.  It is modelled as an explicit `Engine`
  argument; the proposition `IsEigenvals` states that an engine output is
  the genuine eigenvalue data of the input matrix, namely that the
  characteristic polynomial of the matrix factors accordingly over `ℂ`.
* the exact determinant computed by `matrix.det()` is modelled by the
  mathematical determinant `Matrix.det` of the exactly-built matrix.
* Python dictionaries returned by the source are modelled as structures with
  the same field names; `to_dict` is then the identity and is not repeated.
* the digit-level output of `str(N(x))` is not modelled; `ratStr` is a
  stand-in decimal rendering.  What is modelled faithfully is which values
  become strings and that complex strings carry the imaginary marker "i".
* Python string values in the SVG renderer are idealized: coordinates are
  kept as real numbers in structured `Arrow` and `Label` records instead of
  being serialized into SVG text, since no claim inspects the serialized
  digits.  `math.sqrt` on floats is idealized as `Real.sqrt`.
-/

/-- Gaussian rational: the exact value re + im*i.  This models the sympy
numbers that flow through the pipeline (eigenvalues and nullspace entries
after numeric evaluation). -/
structure GaussQ where
  re : ℚ
  im : ℚ
deriving DecidableEq, Repr

/-- Embedding of a Gaussian rational into the complex numbers.  This is a
semantic map used only in statements, not part of the pipeline. -/
noncomputable def GaussQ.toC (z : GaussQ) : ℂ := (z.re : ℂ) + (z.im : ℂ) * Complex.I

/-- Display value stored in the result dictionaries: either a Python float
(idealized as an exact rational) or a Python string. -/
inductive DispVal where
  | num (q : ℚ)
  | cstr (s : String)
deriving DecidableEq, Repr

/-- Stand-in decimal rendering for `str(N(x))` applied to a real value.  The
precise digits sympy prints are not modelled. -/
def ratStr (q : ℚ) : String := toString q

/-- Rendering of the imaginary part of a complex sympy value, after the
`replace` of capital I by lowercase i done in the source (lines 18 and 34):
the text always ends with the marker "*i". -/
def imStr (q : ℚ) : String := ratStr q ++ "*i"

/-- Model of `str(N(val)).replace('I', 'i')` for a value with nonzero
imaginary part, mirroring the shapes sympy prints ("b*I", "a + b*I",
"a - b*I"). -/
def gaussStr (z : GaussQ) : String :=
  if z.re = 0 then imStr z.im
  else if z.im < 0 then ratStr z.re ++ " - " ++ imStr (-z.im)
  else ratStr z.re ++ " + " ++ imStr z.im

/-- Decidable test used in the statements: the string mentions the
imaginary unit marker. -/
def containsI (s : String) : Bool := s.data.contains 'i'

/-- Round to the nearest integer, ties to even, as Python round does. -/
def roundHalfEven (x : ℚ) : ℤ :=
  let f := ⌊x⌋
  let r := x - f
  if r < 1/2 then f
  else if 1/2 < r then f + 1
  else if Even f then f else f + 1

/-- Model of Python `round(x, 4)` (line 31 of the source). -/
def round4 (q : ℚ) : ℚ := (roundHalfEven (q * 10000) : ℚ) / 10000

/-- Model of Python `round` to one decimal used by the label format
specifier ".1f" (line 178 of the source). -/
def round1 (q : ℚ) : ℚ := (roundHalfEven (q * 10) : ℚ) / 10

/-- Formatting of one basis-vector component, mirroring lines 27-34 of the
source: real components are rounded to 4 decimals and kept numeric, complex
components are kept as text with the imaginary marker. -/
def fmtComponent (v : GaussQ) : DispVal :=
  if v.im = 0 then DispVal.num (round4 v.re) else DispVal.cstr (gaussStr v)

/-- Record produced by `EigenObject.to_dict` (lines 37-43 of the source). -/
structure EigenObject where
  eigenvalue : DispVal
  multiplicity : ℕ
  basis : List (List DispVal)
  is_complex : Bool
deriving DecidableEq, Repr

/-- Embedding of `EigenObject.__init__` (lines 10-35): the eigenvalue is
kept as a full-precision float when its numeric evaluation is real and as a
string with the i marker otherwise, and every basis component is formatted
by `fmtComponent`. -/
def mkEigenObject (eigenvalue : GaussQ) (basis : List (List GaussQ)) (multiplicity : ℕ) :
    EigenObject :=
  if eigenvalue.im = 0 then
    { eigenvalue := DispVal.num eigenvalue.re
      multiplicity := multiplicity
      basis := basis.map (fun vec => vec.map fmtComponent)
      is_complex := false }
  else
    { eigenvalue := DispVal.cstr (gaussStr eigenvalue)
      multiplicity := multiplicity
      basis := basis.map (fun vec => vec.map fmtComponent)
      is_complex := true }

/-- Model of the sympy engine used by `calculate_eigen_data`: the data that
`matrix.eigenvals()` and `nullspace()` return for the matrix at hand, the
textual polynomial forms, and an optional raised error (a symbolic failure
inside sympy).  The list order of `eigenvals` is the iteration order of the
Python eigenvalue dictionary. -/
structure Engine where
  eigenvals : List (GaussQ × ℕ)
  nullsp : GaussQ → List (List GaussQ)
  charStr : String
  factorStr : String
  matrixStr : String
  failMsg : Option String

/-- Success payload of `calculate_eigen_data` (the dictionary of lines
82-91 of the source). -/
structure EigenData where
  determinant : DispVal
  characteristic_polynomial : String
  factored_polynomial : String
  eigen_objects : List EigenObject
  spectrum : List DispVal
  eigenspaces : List EigenObject
  matrix_disp : String

/-- Discriminated result of `calculate_eigen_data`: the success dictionary
or the failure dictionary of line 93. -/
inductive CalcResult where
  | success (data : EigenData)
  | failure (error : String)

/-- Squareness test: sympy raises during `Matrix(...)` on ragged input and
during `charpoly` on rectangular non-square input; both are caught by the
try/except of the source and both amount to a row failing this test. -/
def isSquareM (m : List (List ℚ)) : Bool := m.all (fun row => row.length == m.length)

/-- Exact matrix built from the input (lines 51-56 of the source):
`Rational(str(val))` recovers each entry exactly, so the matrix is just the
table of input rationals. -/
def toMatrix (input : List (List ℚ)) :
    Matrix (Fin input.length) (Fin input.length) ℚ :=
  Matrix.of fun i j => (input.get i).getD j.val 0

/-- Exact determinant computed by `matrix.det()` on the exactly-built
matrix (line 84 of the source). -/
def detOf (input : List (List ℚ)) : ℚ := (toMatrix input).det

/-- Error message of the modelled non-square failure path.  The concrete
text comes from the sympy exception and is not modelled digit by digit. -/
def nonSquareMsg : String := "Matrix must be square"

/-- Embedding of `calculate_eigen_data` (lines 48-93 of the source).  The
loop over `eigenvals_dict.items()` becomes a map over the engine list; note
that line 78 appends the displayed eigenvalue once per distinct eigenvalue,
so the spectrum has one entry per eigenvalue mapping entry. -/
def calculate_eigen_data (matrix_input : List (List ℚ)) (eng : Engine) : CalcResult :=
  if isSquareM matrix_input then
    match eng.failMsg with
    | some e => CalcResult.failure e
    | none =>
      let objs := eng.eigenvals.map (fun p => mkEigenObject p.1 (eng.nullsp p.1) p.2)
      CalcResult.success
        { determinant := DispVal.cstr (ratStr (detOf matrix_input))
          characteristic_polynomial := eng.charStr
          factored_polynomial := eng.factorStr
          eigen_objects := objs
          spectrum := objs.map (fun o => o.eigenvalue)
          eigenspaces := objs
          matrix_disp := eng.matrixStr }
  else CalcResult.failure nonSquareMsg

/-- Projection of a result onto its spectrum field, for stating properties
of concrete runs. -/
def spectrumOf (r : CalcResult) : Option (List DispVal) :=
  match r with
  | CalcResult.success d => some d.spectrum
  | CalcResult.failure _ => none

/-- Complex matrix obtained by casting the exactly-built rational matrix,
the carrier over which the engine contract is stated. -/
noncomputable def toMatrixC (input : List (List ℚ)) :
    Matrix (Fin input.length) (Fin input.length) ℂ :=
  (toMatrix input).map (fun q => (q : ℂ))

open Polynomial in
/-- Engine contract: `l` is the genuine eigenvalue data of the input
matrix, i.e. the eigenvalues are pairwise distinct, the multiplicities are
positive, and the characteristic polynomial factors over `ℂ` into the
corresponding linear factors. -/
def IsEigenvals (input : List (List ℚ)) (l : List (GaussQ × ℕ)) : Prop :=
  l.Pairwise (fun p q => p.1 ≠ q.1) ∧ (∀ p ∈ l, 0 < p.2) ∧
    (toMatrixC input).charpoly =
      (l.map (fun p => (X - C (GaussQ.toC p.1)) ^ p.2)).prod

/-- Renderer-level Python value: a float (idealized as a real number) or a
string.  Basis components enter the renderer as display values and their
floats are widened to reals once real geometry (sqrt, division) starts. -/
inductive RVal where
  | num (x : ℝ)
  | str (s : String)

/-- Widening of a stored display value to a renderer value. -/
noncomputable def dispToR (v : DispVal) : RVal :=
  match v with
  | DispVal.num q => RVal.num (q : ℝ)
  | DispVal.cstr s => RVal.str s

/-- Model of Python `float(x)` on a renderer value: succeeds on a float and
raises on the complex-number strings produced by this pipeline (they always
contain the marker i, so they never parse as a float literal). -/
def floatOf (v : RVal) : Option ℝ :=
  match v with
  | RVal.num x => some x
  | RVal.str _ => none

/-- Model of `[float(x) for x in vector]` (line 121): all components must
convert, otherwise the comprehension raises. -/
def floatList : List RVal → Option (List ℝ)
  | [] => some []
  | x :: xs =>
    match floatOf x, floatList xs with
    | some f, some fs => some (f :: fs)
    | _, _ => none

/-- Euclidean norm computed on line 122: `math.sqrt(sum(c**2 for c in vec))`. -/
noncomputable def pyNorm (fs : List ℝ) : ℝ := Real.sqrt ((fs.map (fun c => c ^ 2)).sum)

namespace Svg

open scoped Classical in
/-- Embedding of the nested `normalize` helper (lines 119-125 of the
source): convert all components to floats, divide by the Euclidean norm
when it is nonzero, return the float values unchanged when it is zero, and
return the vector untouched when some component fails to convert. -/
noncomputable def normalize (vector : List RVal) : List RVal :=
  match floatList vector with
  | none => vector
  | some fs =>
    let nrm := pyNorm fs
    if nrm = 0 then fs.map RVal.num
    else fs.map (fun c => RVal.num (c / nrm))

/-- Embedding of the nested `project` helper (lines 109-117 of the source):
vectors of dimension below 2 and vectors whose first two components do not
convert to floats land on the origin; otherwise only the first two
coordinates are used. -/
noncomputable def project (vector : List RVal) (scale ox oy : ℝ) : ℝ × ℝ :=
  if vector.length < 2 then (ox, oy)
  else
    match vector with
    | x :: y :: _ =>
      match floatOf x, floatOf y with
      | some xf, some yf => (ox + xf * scale, oy - yf * scale)
      | _, _ => (ox, oy)
    | _ => (ox, oy)

end Svg

/-- Canvas width, line 99 of the source. -/
def WIDTH : ℕ := 400

/-- Canvas height, line 99 of the source. -/
def HEIGHT : ℕ := 400

/-- Fixed padding margin, line 100 of the source. -/
def PADDING : ℕ := 40

/-- Drawing scale, line 142 of the source: half the canvas minus the
padding. -/
noncomputable def SCALE : ℝ := (min WIDTH HEIGHT : ℝ) / 2 - (PADDING : ℝ)

/-- Horizontal origin, line 143 of the source (integer division). -/
def ORIGIN_X : ℕ := WIDTH / 2

/-- Vertical origin, line 143 of the source. -/
def ORIGIN_Y : ℕ := HEIGHT / 2

/-- Solid-arrow color of the source, line 105. -/
def COLOR_EIGENVALUE : String := "#3B5BDB"

/-- Basis-arrow color of the source, line 106. -/
def COLOR_EIGENBASIS : String := "#FFA500"

/-- Structured form of one `<line>` arrow element emitted by
`dashed_arrow` (lines 127-129); coordinates are kept as reals. -/
structure Arrow where
  x1 : ℝ
  y1 : ℝ
  x2 : ℝ
  y2 : ℝ
  color : String
  dashed : Bool

/-- Structured form of one `<text>` label element (line 178). -/
structure Label where
  x : ℝ
  y : ℝ
  text : String

/-- Structured form of the SVG document: the data-dependent arrows and
labels (grid, axes and unit circle carry no data and are omitted). -/
structure SvgDoc where
  arrows : List Arrow
  labels : List Label

/-- Numeric value of the eigenvalue field inside the drawing branch.  The
branch is only reached with is_complex false, where the pipeline always
stores a float; the string fallback is unreachable for pipeline data (on
foreign data Python would raise a TypeError at the comparison on line 167,
which is outside every claim). -/
def evFloat (v : DispVal) : ℚ :=
  match v with
  | DispVal.num q => q
  | DispVal.cstr _ => 0

/-- Python `s * k` string repetition semantics for an integer factor. -/
def pyStrMul (s : String) (k : ℤ) : String :=
  String.join (List.replicate k.toNat s)

/-- Model of one component of `signed_vector` (lines 166-167): floats are
multiplied by plus or minus one, strings hit Python string repetition. -/
noncomputable def mulSign (neg : Bool) (c : RVal) : RVal :=
  match c with
  | RVal.num x => RVal.num (x * (if neg then -1 else 1))
  | RVal.str s => RVal.str (pyStrMul s (if neg then -1 else 1))

/-- Embedding of `signed_vector` (lines 166-167 of the source): flip every
component when the eigenvalue is negative. -/
noncomputable def signedVec (ev : ℚ) (v : List RVal) : List RVal :=
  v.map (mulSign (decide (ev < 0)))

/-- Label text of line 178, with the eigenvalue formatted to one decimal. -/
def lambdaLabel (ev : ℚ) : String := "λ=" ++ ratStr (round1 ev)

/-- Dashed basis arrow drawn for one basis vector (lines 171-174). -/
noncomputable def basisArrow (ev : ℚ) (v : List DispVal) : Arrow :=
  let p := Svg.project (Svg.normalize (signedVec ev (v.map dispToR))) SCALE ORIGIN_X ORIGIN_Y
  { x1 := ORIGIN_X, y1 := ORIGIN_Y, x2 := p.1, y2 := p.2
    color := COLOR_EIGENBASIS, dashed := true }

/-- Solid eigenvalue arrow drawn for the first basis vector (lines 176-177). -/
noncomputable def mainArrow (ev : ℚ) (firstVec : List DispVal) : Arrow :=
  let p := Svg.project (Svg.normalize (signedVec ev (firstVec.map dispToR))) SCALE ORIGIN_X ORIGIN_Y
  { x1 := ORIGIN_X, y1 := ORIGIN_Y, x2 := p.1, y2 := p.2
    color := COLOR_EIGENVALUE, dashed := false }

/-- Label placed above the tip of the solid arrow (line 178). -/
noncomputable def entryLabel (ev : ℚ) (firstVec : List DispVal) : Label :=
  let p := Svg.project (Svg.normalize (signedVec ev (firstVec.map dispToR))) SCALE ORIGIN_X ORIGIN_Y
  { x := p.1, y := p.2 - 10, text := lambdaLabel ev }

/-- Arrows contributed by one drawn eigen entry: one dashed arrow per basis
vector, then the solid arrow for the first basis vector. -/
noncomputable def entryArrows (ev : ℚ) (basis : List (List DispVal)) : List Arrow :=
  basis.map (basisArrow ev) ++
    [mainArrow ev (basis.headD [])]

/-- Loop body of the `for obj in data.get("eigen_objects", [])` loop (lines
151-178), acting on an accumulator of drawn arrows, labels and the
has_real_vectors flag.  Complex entries, entries with an empty basis list,
and entries whose first basis vector has no float-convertible first
component are skipped without touching the accumulator. -/
noncomputable def svgStep (acc : List Arrow × List Label × Bool) (obj : EigenObject) :
    List Arrow × List Label × Bool :=
  if obj.is_complex then acc
  else
    match obj.basis with
    | [] => acc
    | firstVec :: _ =>
      match firstVec with
      | [] => acc
      | c :: _ =>
        match c with
        | DispVal.cstr _ => acc
        | DispVal.num _ =>
          (acc.1 ++ entryArrows (evFloat obj.eigenvalue) obj.basis,
           acc.2.1 ++ [entryLabel (evFloat obj.eigenvalue) (obj.basis.headD [])],
           true)

/-- Embedding of `generate_eigen_svg` (lines 98-202 of the source): run the
loop over the eigen objects and return the document when the
has_real_vectors flag was set, the absence marker None otherwise. -/
noncomputable def generate_eigen_svg (data : EigenData) : Option SvgDoc :=
  let r := data.eigen_objects.foldl svgStep ([], [], false)
  if r.2.2 then some { arrows := r.1, labels := r.2.1 } else none

/-- Drawability test distilled from lines 151-164: the entry is not flagged
complex, its basis list is nonempty, and the first component of its first
basis vector converts to a float. -/
def entryDrawable (obj : EigenObject) : Bool :=
  !obj.is_complex &&
    match obj.basis with
    | (c :: _) :: _ =>
      (match c with
       | DispVal.num _ => true
       | DispVal.cstr _ => false)
    | _ => false

/-- Projection of a calculation result onto the rendered diagram, for
stating end-to-end properties of concrete runs. -/
noncomputable def svgOfResult (r : CalcResult) : Option (Option SvgDoc) :=
  match r with
  | CalcResult.success d => some (generate_eigen_svg d)
  | CalcResult.failure _ => none

/-- One pass of the loop body either appends the arrows and the label of a
drawable entry and sets the flag, or leaves the accumulator untouched,
according to the drawability test. -/
theorem svgStep_eq (acc : List Arrow × List Label × Bool) (obj : EigenObject) :
    svgStep acc obj =
      if entryDrawable obj then
        (acc.1 ++ entryArrows (evFloat obj.eigenvalue) obj.basis,
         acc.2.1 ++ [entryLabel (evFloat obj.eigenvalue) (obj.basis.headD [])],
         true)
      else acc := by
  rcases obj with ⟨ev, m, basis, ic⟩
  cases ic
  · cases basis with
    | nil => simp [svgStep, entryDrawable]
    | cons fv rest =>
      cases fv with
      | nil => simp [svgStep, entryDrawable]
      | cons c cs => cases c <;> simp [svgStep, entryDrawable]
  · simp [svgStep, entryDrawable]

/-- Closed form of the rendering loop: drawn arrows and labels come exactly
from the entries passing the drawability test, in order, and the
has_real_vectors flag records whether any entry passed. -/
theorem svgFold (objs : List EigenObject) (acc : List Arrow × List Label × Bool) :
    objs.foldl svgStep acc =
      (acc.1 ++ (objs.filter entryDrawable).flatMap
          (fun o => entryArrows (evFloat o.eigenvalue) o.basis),
       acc.2.1 ++ (objs.filter entryDrawable).map
          (fun o => entryLabel (evFloat o.eigenvalue) (o.basis.headD [])),
       (acc.2.2 || objs.any entryDrawable)) := by
  induction objs generalizing acc with
  | nil => simp
  | cons a l ih =>
    rw [List.foldl_cons, svgStep_eq]
    by_cases h : entryDrawable a
    · simp [h, ih, List.append_assoc]
    · simp [h, ih]

/-- The renderer returns the absence marker exactly when no entry passes
the drawability test. -/
theorem generate_eigen_svg_none_iff (data : EigenData) :
    generate_eigen_svg data = none ↔ ∀ o ∈ data.eigen_objects, entryDrawable o = false := by
  unfold generate_eigen_svg
  rw [svgFold]
  cases h : data.eigen_objects.any entryDrawable
  · simp only [Bool.false_or, h]
    simp only [List.any_eq_false] at h
    simp only [if_neg Bool.false_ne_true]
    constructor
    · intro _ o ho
      exact Bool.not_eq_true _ ▸ (by simpa using h o ho)
    · intro _; trivial
  · simp only [Bool.false_or, h, if_pos rfl]
    constructor
    · intro hc; exact absurd hc (by simp)
    · intro hall
      rw [List.any_eq_true] at h
      obtain ⟨o, ho, hdo⟩ := h
      exact absurd (hall o ho) (by simp [hdo])

/-- Any string obtained by appending the imaginary-part rendering carries
the marker i. -/
theorem containsI_append (s : String) (q : ℚ) : containsI (s ++ imStr q) = true := by
  have h : 'i' ∈ (s ++ imStr q).data := by
    rw [String.data_append]
    refine List.mem_append.mpr (Or.inr ?_)
    rw [imStr, String.data_append]
    refine List.mem_append.mpr (Or.inr ?_)
    decide
  simpa [containsI] using h

/-- The rendering of the imaginary part alone carries the marker i. -/
theorem containsI_imStr (q : ℚ) : containsI (imStr q) = true := by
  have h : 'i' ∈ (imStr q).data := by
    rw [imStr, String.data_append]
    refine List.mem_append.mpr (Or.inr ?_)
    decide
  simpa [containsI] using h

/-- Every complex value rendered by the pipeline mentions the imaginary
unit marker i. -/
theorem containsI_gaussStr (z : GaussQ) : containsI (gaussStr z) = true := by
  unfold gaussStr
  by_cases h1 : z.re = 0
  · rw [if_pos h1]; exact containsI_imStr z.im
  · rw [if_neg h1]
    by_cases h2 : z.im < 0
    · rw [if_pos h2]; exact containsI_append (ratStr z.re ++ " - ") (-z.im)
    · rw [if_neg h2]; exact containsI_append (ratStr z.re ++ " + ") z.im

/-- C2: for every eigenvalue, the normalized result stores a full-precision
float when the numeric evaluation is real and otherwise keeps a textual
representation carrying the marker i, never a float; each basis-vector
component follows the same dichotomy (with rounding to 4 decimals in the
real case, per the source). -/
theorem c2_real_complex_dichotomy :
    ∀ (z : GaussQ) (basis : List (List GaussQ)) (m : ℕ),
      (z.im = 0 →
        (mkEigenObject z basis m).eigenvalue = DispVal.num z.re ∧
          (mkEigenObject z basis m).is_complex = false) ∧
      (z.im ≠ 0 →
        (mkEigenObject z basis m).eigenvalue = DispVal.cstr (gaussStr z) ∧
          containsI (gaussStr z) = true ∧
          (mkEigenObject z basis m).is_complex = true ∧
          ∀ q : ℚ, (mkEigenObject z basis m).eigenvalue ≠ DispVal.num q) ∧
      ((mkEigenObject z basis m).basis = basis.map (fun vec => vec.map fmtComponent) ∧
        ∀ v : GaussQ,
          (v.im = 0 → fmtComponent v = DispVal.num (round4 v.re)) ∧
          (v.im ≠ 0 →
            fmtComponent v = DispVal.cstr (gaussStr v) ∧
              containsI (gaussStr v) = true ∧
              ∀ q : ℚ, fmtComponent v ≠ DispVal.num q)) := by
  intro z basis m
  refine ⟨?_, ?_, ?_, ?_⟩
  · intro h; rw [mkEigenObject, if_pos h]; exact ⟨rfl, rfl⟩
  · intro h
    rw [mkEigenObject, if_neg h]
    exact ⟨rfl, containsI_gaussStr z, rfl, fun q hq => DispVal.noConfusion hq⟩
  · unfold mkEigenObject
    by_cases h : z.im = 0
    · rw [if_pos h]
    · rw [if_neg h]
  · intro v
    constructor
    · intro h; rw [fmtComponent, if_pos h]
    · intro h
      rw [fmtComponent, if_neg h]
      exact ⟨rfl, containsI_gaussStr v, fun q hq => DispVal.noConfusion hq⟩

/-- Witness for C2 at the concrete eigenvalues 1 and i with one concrete
basis vector. -/
theorem c2_real_complex_dichotomy_witness :
    ((mkEigenObject ⟨1, 0⟩ [[⟨1, 0⟩]] 1).eigenvalue = DispVal.num 1 ∧
        (mkEigenObject ⟨1, 0⟩ [[⟨1, 0⟩]] 1).is_complex = false) ∧
      ((mkEigenObject ⟨0, 1⟩ [[⟨0, 1⟩]] 1).eigenvalue = DispVal.cstr (gaussStr ⟨0, 1⟩) ∧
        containsI (gaussStr ⟨0, 1⟩) = true ∧
        (mkEigenObject ⟨0, 1⟩ [[⟨0, 1⟩]] 1).is_complex = true ∧
        ∀ q : ℚ, (mkEigenObject ⟨0, 1⟩ [[⟨0, 1⟩]] 1).eigenvalue ≠ DispVal.num q) :=
  ⟨(c2_real_complex_dichotomy ⟨1, 0⟩ [[⟨1, 0⟩]] 1).1 rfl,
   (c2_real_complex_dichotomy ⟨0, 1⟩ [[⟨0, 1⟩]] 1).2.1 (by norm_num)⟩

/-- Shape of every successful run: the input passed the squareness test,
the engine raised nothing, and the payload is exactly the dictionary built
by lines 82-91 of the source. -/
theorem success_shape (input : List (List ℚ)) (eng : Engine) (d : EigenData)
    (h : calculate_eigen_data input eng = CalcResult.success d) :
    isSquareM input = true ∧ eng.failMsg = none ∧
      d = { determinant := DispVal.cstr (ratStr (detOf input))
            characteristic_polynomial := eng.charStr
            factored_polynomial := eng.factorStr
            eigen_objects :=
              eng.eigenvals.map (fun p => mkEigenObject p.1 (eng.nullsp p.1) p.2)
            spectrum :=
              (eng.eigenvals.map (fun p => mkEigenObject p.1 (eng.nullsp p.1) p.2)).map
                (fun o => o.eigenvalue)
            eigenspaces :=
              eng.eigenvals.map (fun p => mkEigenObject p.1 (eng.nullsp p.1) p.2)
            matrix_disp := eng.matrixStr } := by
  unfold calculate_eigen_data at h
  by_cases hs : isSquareM input
  · rw [if_pos hs] at h
    cases hf : eng.failMsg with
    | some e => rw [hf] at h; exact (CalcResult.noConfusion h)
    | none =>
      rw [hf] at h
      refine ⟨hs, rfl, ?_⟩
      injection h with h
      exact h.symm
  · rw [if_neg hs] at h; exact (CalcResult.noConfusion h)

/-- C4: every call returns a discriminated result; the failure paths are
tagged with a message and the non-failing path yields a success payload. -/
theorem c4_discriminated_result :
    ∀ (input : List (List ℚ)) (eng : Engine),
      ((∃ d, calculate_eigen_data input eng = CalcResult.success d) ∨
        (∃ e, calculate_eigen_data input eng = CalcResult.failure e)) ∧
      (isSquareM input = false →
        calculate_eigen_data input eng = CalcResult.failure nonSquareMsg) ∧
      (∀ e, isSquareM input = true → eng.failMsg = some e →
        calculate_eigen_data input eng = CalcResult.failure e) ∧
      (isSquareM input = true → eng.failMsg = none →
        ∃ d, calculate_eigen_data input eng = CalcResult.success d) := by
  intro input eng
  unfold calculate_eigen_data
  by_cases hs : isSquareM input
  · rw [if_pos hs]
    refine ⟨?_, ?_, ?_, ?_⟩
    · cases hf : eng.failMsg with
      | some e => right; exact ⟨e, rfl⟩
      | none => left; exact ⟨_, rfl⟩
    · intro h; exact absurd hs (by simp [h])
    · intro e _ hf; rw [hf]
    · intro _ hf; rw [hf]; exact ⟨_, rfl⟩
  · rw [if_neg hs]
    refine ⟨Or.inr ⟨_, rfl⟩, fun _ => rfl, ?_, ?_⟩
    · intro e h _; exact absurd h (by simpa using hs)
    · intro h _; exact absurd h (by simpa using hs)

/-- Witness for C4: a concrete square input with a non-failing engine
yields a success result, and a concrete ragged input yields the tagged
failure. -/
theorem c4_discriminated_result_witness :
    (∃ d, calculate_eigen_data [[1, 0], [0, 1]]
        { eigenvals := [(⟨1, 0⟩, 2)], nullsp := fun _ => [], charStr := ""
          factorStr := "", matrixStr := "", failMsg := none } = CalcResult.success d) ∧
      calculate_eigen_data [[1, 0]]
          { eigenvals := [], nullsp := fun _ => [], charStr := ""
            factorStr := "", matrixStr := "", failMsg := none } =
        CalcResult.failure nonSquareMsg :=
  ⟨(c4_discriminated_result [[1, 0], [0, 1]] _).2.2.2 (by decide) rfl,
   (c4_discriminated_result [[1, 0]] _).2.1 (by decide)⟩

/-- C1 (amended): the spectrum of a successful result lists the displayed
form of each distinct eigenvalue exactly once, in the iteration order of
the eigenvalue mapping, so its length is the number of distinct
eigenvalues. -/
theorem c1_spectrum_one_per_distinct :
    ∀ (input : List (List ℚ)) (eng : Engine) (d : EigenData),
      calculate_eigen_data input eng = CalcResult.success d →
      d.spectrum =
          eng.eigenvals.map
            (fun p => (mkEigenObject p.1 (eng.nullsp p.1) p.2).eigenvalue) ∧
        d.spectrum.length = eng.eigenvals.length := by
  intro input eng d h
  obtain ⟨-, -, hd⟩ := success_shape input eng d h
  subst hd
  constructor
  · simp [List.map_map]
  · simp

/-- Concrete run used by several statements: the 2 by 2 identity matrix,
with the engine data sympy returns for it (one eigenvalue 1 of
multiplicity 2, the standard basis as nullspace). -/
def inId : List (List ℚ) := [[1, 0], [0, 1]]

/-- Engine output for the identity matrix run. -/
def engId : Engine :=
  { eigenvals := [(⟨1, 0⟩, 2)]
    nullsp := fun _ => [[⟨1, 0⟩, ⟨0, 0⟩], [⟨0, 0⟩, ⟨1, 0⟩]]
    charStr := "λ**2 - 2*λ + 1"
    factorStr := "(λ - 1)**2"
    matrixStr := "Matrix([[1, 0], [0, 1]])"
    failMsg := none }

/-- Payload of the identity matrix run, spelled out. -/
def dId : EigenData :=
  { determinant := DispVal.cstr (ratStr (detOf inId))
    characteristic_polynomial := engId.charStr
    factored_polynomial := engId.factorStr
    eigen_objects := engId.eigenvals.map (fun p => mkEigenObject p.1 (engId.nullsp p.1) p.2)
    spectrum :=
      (engId.eigenvals.map (fun p => mkEigenObject p.1 (engId.nullsp p.1) p.2)).map
        (fun o => o.eigenvalue)
    eigenspaces := engId.eigenvals.map (fun p => mkEigenObject p.1 (engId.nullsp p.1) p.2)
    matrix_disp := engId.matrixStr }

/-- The identity matrix run succeeds with the payload above. -/
theorem calcId : calculate_eigen_data inId engId = CalcResult.success dId := rfl

/-- Witness for C1 (amended) on the identity matrix run. -/
theorem c1_spectrum_one_per_distinct_witness :
    dId.spectrum =
        engId.eigenvals.map
          (fun p => (mkEigenObject p.1 (engId.nullsp p.1) p.2).eigenvalue) ∧
      dId.spectrum.length = engId.eigenvals.length :=
  c1_spectrum_one_per_distinct inId engId dId calcId

/-- C8: screen positions use only the first two coordinates, with
screen_x = ox + x*scale and screen_y = oy - y*scale, on the fixed 400 by
400 canvas with origin (200, 200) and scale 160 = half canvas minus the
padding margin. -/
theorem c8_projection_formula :
    (∀ (x y : ℝ) (rest : List RVal) (scale ox oy : ℝ),
        Svg.project (RVal.num x :: RVal.num y :: rest) scale ox oy =
          (ox + x * scale, oy - y * scale)) ∧
      WIDTH = 400 ∧ HEIGHT = 400 ∧ ORIGIN_X = 200 ∧ ORIGIN_Y = 200 ∧
      SCALE = (min WIDTH HEIGHT : ℝ) / 2 - (PADDING : ℝ) ∧ PADDING = 40 ∧
      SCALE = 160 := by
  refine ⟨?_, rfl, rfl, rfl, rfl, rfl, rfl, ?_⟩
  · intro x y rest scale ox oy
    simp [Svg.project, floatOf]
  · rw [SCALE]; norm_num [WIDTH, HEIGHT, PADDING]

/-- C10: a real-flagged entry is drawn exactly when its basis list is
nonempty and the first component of its first basis vector is a float; the
loop output is precisely the arrows and labels of the entries passing this
test, so an entry failing it is skipped silently, whatever its other basis
vectors hold. -/
theorem c10_first_component_drawability :
    (∀ data : EigenData,
        data.eigen_objects.foldl svgStep ([], [], false) =
          ((data.eigen_objects.filter entryDrawable).flatMap
              (fun o => entryArrows (evFloat o.eigenvalue) o.basis),
           (data.eigen_objects.filter entryDrawable).map
              (fun o => entryLabel (evFloat o.eigenvalue) (o.basis.headD [])),
           data.eigen_objects.any entryDrawable)) ∧
      (∀ (ev : DispVal) (m : ℕ) (c : DispVal) (cs cs2 : List DispVal)
          (rest rest2 : List (List DispVal)) (ic : Bool),
        entryDrawable ⟨ev, m, (c :: cs) :: rest, ic⟩ =
            (!ic &&
              (match c with
               | DispVal.num _ => true
               | DispVal.cstr _ => false)) ∧
          entryDrawable ⟨ev, m, (c :: cs) :: rest, ic⟩ =
            entryDrawable ⟨ev, m, (c :: cs2) :: rest2, ic⟩) ∧
      (∀ (ev : DispVal) (m : ℕ) (ic : Bool) (rest : List (List DispVal)),
        entryDrawable ⟨ev, m, [] :: rest, ic⟩ = false ∧
          entryDrawable ⟨ev, m, [], ic⟩ = false) := by
  refine ⟨?_, ?_, ?_⟩
  · intro data
    rw [svgFold]
    simp
  · intro ev m c cs cs2 rest rest2 ic
    exact ⟨rfl, rfl⟩
  · intro ev m ic rest
    constructor
    · simp [entryDrawable]
    · simp [entryDrawable]

/-- Sum of squares of a list of reals is nonnegative. -/
theorem sumSq_nonneg (fs : List ℝ) : 0 ≤ (fs.map (fun c => c ^ 2)).sum := by
  refine List.sum_nonneg ?_
  intro a ha
  obtain ⟨c, -, rfl⟩ := List.mem_map.mp ha
  positivity

/-- C9: when every component converts to a float, the renderer divides by
the Euclidean norm and the output has Euclidean norm 1 whenever the norm is
nonzero, and the float values are returned unmodified when the norm is
zero. -/
theorem c9_normalize_unit :
    ∀ (vector : List RVal) (fs : List ℝ), floatList vector = some fs →
      (pyNorm fs ≠ 0 →
        Svg.normalize vector = fs.map (fun c => RVal.num (c / pyNorm fs)) ∧
          pyNorm (fs.map (fun c => c / pyNorm fs)) = 1) ∧
      (pyNorm fs = 0 → Svg.normalize vector = fs.map RVal.num) := by
  intro vector fs h
  constructor
  · intro hn
    have hS0 : 0 ≤ (fs.map (fun c => c ^ 2)).sum := sumSq_nonneg fs
    have hsq : pyNorm fs ^ 2 = (fs.map (fun c => c ^ 2)).sum := Real.sq_sqrt hS0
    have hSne : (fs.map (fun c => c ^ 2)).sum ≠ 0 := by
      intro hz
      exact hn (by rw [pyNorm, hz, Real.sqrt_zero])
    constructor
    · rw [Svg.normalize, h]
      simp only [if_neg hn]
    · have hmap :
          (fs.map (fun c => c / pyNorm fs)).map (fun c => c ^ 2) =
            fs.map (fun c => c ^ 2 * ((fs.map (fun c => c ^ 2)).sum)⁻¹) := by
        rw [List.map_map]
        refine List.map_congr_left ?_
        intro c _
        simp only [Function.comp]
        rw [div_pow, ← hsq]
        rw [div_eq_mul_inv]
      rw [pyNorm, hmap, List.sum_map_mul_right, mul_inv_cancel₀ hSne, Real.sqrt_one]
  · intro hz
    rw [Svg.normalize, h]
    simp only [if_pos hz]

/-- Witness for C9 at the concrete vector (3, 4). -/
theorem c9_normalize_unit_witness :
    Svg.normalize [RVal.num 3, RVal.num 4] =
        [(3 : ℝ), 4].map (fun c => RVal.num (c / pyNorm [(3 : ℝ), 4])) ∧
      pyNorm ([(3 : ℝ), 4].map (fun c => c / pyNorm [(3 : ℝ), 4])) = 1 :=
  (c9_normalize_unit [RVal.num 3, RVal.num 4] [(3 : ℝ), 4] rfl).1
    (by rw [pyNorm]; norm_num)

open Polynomial in
/-- Product of the linear factors of an eigenvalue list is monic with
degree the sum of the multiplicities. -/
theorem factorsProd_monic_natDegree (l : List (GaussQ × ℕ)) :
    ((l.map (fun p : GaussQ × ℕ => ((X : Polynomial ℂ) - C (GaussQ.toC p.1)) ^ p.2)).prod).Monic ∧
      ((l.map (fun p : GaussQ × ℕ => ((X : Polynomial ℂ) - C (GaussQ.toC p.1)) ^ p.2)).prod).natDegree =
        (l.map (fun p => p.2)).sum := by
  induction l with
  | nil => exact ⟨monic_one, by simp⟩
  | cons a t ih =>
    have hm : ((X - C (GaussQ.toC a.1)) ^ a.2).Monic := (monic_X_sub_C _).pow _
    refine ⟨?_, ?_⟩
    · rw [List.map_cons, List.prod_cons]
      exact hm.mul ih.1
    · rw [List.map_cons, List.prod_cons, hm.natDegree_mul ih.1, ih.2,
        (Polynomial.monic_X_sub_C (GaussQ.toC a.1)).natDegree_pow,
        Polynomial.natDegree_X_sub_C, mul_one, List.map_cons, List.sum_cons]

/-- Degree count: whenever the engine output satisfies the eigenvalue
contract, the multiplicities add up to the size of the matrix. -/
theorem isEigenvals_sum_mult (input : List (List ℚ)) (l : List (GaussQ × ℕ))
    (h : IsEigenvals input l) : (l.map (fun p => p.2)).sum = input.length := by
  have hdeg : (toMatrixC input).charpoly.natDegree = input.length := by
    rw [Matrix.charpoly_natDegree_eq_dim]
    exact Fintype.card_fin _
  rw [h.2.2] at hdeg
  rw [(factorsProd_monic_natDegree l).2] at hdeg
  exact hdeg

/-- Multiplicity stored in an eigen object is the engine multiplicity. -/
theorem mkEigenObject_multiplicity (z : GaussQ) (b : List (List GaussQ)) (m : ℕ) :
    (mkEigenObject z b m).multiplicity = m := by
  unfold mkEigenObject
  by_cases h : z.im = 0
  · rw [if_pos h]
  · rw [if_neg h]

/-- C3: for a valid matrix of size 2 to 5 whose engine data satisfies the
eigenvalue contract, the multiplicities of the eigen entries of a
successful result sum to the matrix size n. -/
theorem c3_multiplicities_sum_to_n :
    ∀ (input : List (List ℚ)) (eng : Engine) (d : EigenData),
      2 ≤ input.length → input.length ≤ 5 →
      IsEigenvals input eng.eigenvals →
      calculate_eigen_data input eng = CalcResult.success d →
      (d.eigen_objects.map (fun o => o.multiplicity)).sum = input.length := by
  intro input eng d h2 h5 hie hcalc
  obtain ⟨-, -, hd⟩ := success_shape input eng d hcalc
  subst hd
  have hmap :
      (eng.eigenvals.map (fun p => mkEigenObject p.1 (eng.nullsp p.1) p.2)).map
          (fun o => o.multiplicity) =
        eng.eigenvals.map (fun p => p.2) := by
    rw [List.map_map]
    refine List.map_congr_left ?_
    intro p _
    exact mkEigenObject_multiplicity p.1 (eng.nullsp p.1) p.2
  simp only [hmap]
  exact isEigenvals_sum_mult input eng.eigenvals hie

open Polynomial in
/-- Characteristic polynomial of a 2 by 2 complex matrix in closed form. -/
theorem charpolyFinTwo (M : Matrix (Fin 2) (Fin 2) ℂ) :
    M.charpoly =
      X ^ 2 - C (M 0 0 + M 1 1) * X + C (M 0 0 * M 1 1 - M 0 1 * M 1 0) := by
  rw [Matrix.charpoly, Matrix.det_fin_two]
  rw [Matrix.charmatrix_apply_eq, Matrix.charmatrix_apply_eq,
    Matrix.charmatrix_apply_ne _ _ _ (by decide),
    Matrix.charmatrix_apply_ne _ _ _ (by decide)]
  simp only [C_add, C_mul, C_sub]
  ring

/-- The engine output recorded in `engId` is the genuine eigenvalue data of
the identity matrix: its characteristic polynomial is (X - 1)^2. -/
theorem isEigenvals_inId : IsEigenvals inId engId.eigenvals := by
  refine ⟨by simp [engId], by simp [engId], ?_⟩
  rw [charpolyFinTwo (toMatrixC inId)]
  have e00 : toMatrixC inId (0 : Fin 2) (0 : Fin 2) = ((1 : ℚ) : ℂ) := rfl
  have e01 : toMatrixC inId (0 : Fin 2) (1 : Fin 2) = ((0 : ℚ) : ℂ) := rfl
  have e10 : toMatrixC inId (1 : Fin 2) (0 : Fin 2) = ((0 : ℚ) : ℂ) := rfl
  have e11 : toMatrixC inId (1 : Fin 2) (1 : Fin 2) = ((1 : ℚ) : ℂ) := rfl
  rw [e00, e01, e10, e11]
  have ht : GaussQ.toC ⟨1, 0⟩ = 1 := by
    rw [GaussQ.toC]
    norm_num
  simp only [engId, List.map_cons, List.map_nil, List.prod_cons, List.prod_nil, ht]
  norm_num
  simp only [map_ofNat]
  ring

/-- Witness for C3 on the identity matrix run: the single multiplicity 2
sums to the matrix size 2. -/
theorem c3_multiplicities_sum_to_n_witness :
    (dId.eigen_objects.map (fun o => o.multiplicity)).sum = inId.length :=
  c3_multiplicities_sum_to_n inId engId dId (by decide) (by decide) isEigenvals_inId calcId

/-- Counterexample for C1 as stated: on the 2 by 2 identity matrix with its
genuine engine data, the spectrum of the successful result is [1.0] with
length 1, although the claim demands length n = 2 (the distinct eigenvalue
1 has algebraic multiplicity 2 but is listed only once). -/
theorem c1_counterexample :
    IsEigenvals inId engId.eigenvals ∧
      spectrumOf (calculate_eigen_data inId engId) = some [DispVal.num 1] ∧
      inId.length = 2 ∧
      (∀ s, spectrumOf (calculate_eigen_data inId engId) = some s →
        s.length ≠ inId.length) := by
  have hspec : spectrumOf (calculate_eigen_data inId engId) = some [DispVal.num 1] := rfl
  refine ⟨isEigenvals_inId, hspec, rfl, ?_⟩
  intro s hs
  rw [hspec] at hs
  injection hs with hs
  rw [← hs]
  decide

open Polynomial in
/-- Evaluation at zero of the product of linear factors: the product of the
negated eigenvalues, each to its multiplicity. -/
theorem factorsProd_eval_zero (l : List (GaussQ × ℕ)) :
    ((l.map (fun p : GaussQ × ℕ => ((X : Polynomial ℂ) - C (GaussQ.toC p.1)) ^ p.2)).prod).eval 0 =
      (-1 : ℂ) ^ ((l.map (fun p => p.2)).sum) *
        (l.map (fun p => GaussQ.toC p.1 ^ p.2)).prod := by
  induction l with
  | nil => simp
  | cons a t ih =>
    rw [List.map_cons, List.prod_cons, eval_mul, ih]
    rw [eval_pow, eval_sub, eval_X, eval_C, zero_sub, neg_pow]
    rw [List.map_cons, List.sum_cons, List.map_cons, List.prod_cons, pow_add]
    ring

/-- C6: for a successful run whose engine data satisfies the eigenvalue
contract, the reported determinant value equals the product of all
eigenvalues raised to their algebraic multiplicities, and the determinant
field renders exactly that value. -/
theorem c6_det_eq_weighted_eigenvalue_product :
    ∀ (input : List (List ℚ)) (eng : Engine) (d : EigenData),
      IsEigenvals input eng.eigenvals →
      calculate_eigen_data input eng = CalcResult.success d →
      ((detOf input : ℚ) : ℂ) = (eng.eigenvals.map (fun p => GaussQ.toC p.1 ^ p.2)).prod ∧
        d.determinant = DispVal.cstr (ratStr (detOf input)) := by
  intro input eng d hie hcalc
  obtain ⟨-, -, hd⟩ := success_shape input eng d hcalc
  constructor
  · have hdet : ((detOf input : ℚ) : ℂ) = (toMatrixC input).det := by
      rw [detOf, toMatrixC]
      rw [show (fun q : ℚ => (q : ℂ)) = ⇑(Rat.castHom ℂ) from rfl]
      exact RingHom.map_det (Rat.castHom ℂ) (toMatrix input)
    rw [hdet, Matrix.det_eq_sign_charpoly_coeff, Polynomial.coeff_zero_eq_eval_zero,
      hie.2.2, factorsProd_eval_zero, isEigenvals_sum_mult input eng.eigenvals hie,
      Fintype.card_fin, ← mul_assoc, ← mul_pow]
    norm_num
  · rw [hd]

/-- Concrete run: the diagonal matrix with entries 2 and 3. -/
def inDiag : List (List ℚ) := [[2, 0], [0, 3]]

/-- Engine output for the diagonal matrix run: eigenvalues 2 and 3, each of
multiplicity 1, with one-dimensional eigenspaces. -/
def engDiag : Engine :=
  { eigenvals := [(⟨2, 0⟩, 1), (⟨3, 0⟩, 1)]
    nullsp := fun z => if z.re = 2 then [[⟨1, 0⟩, ⟨0, 0⟩]] else [[⟨0, 0⟩, ⟨1, 0⟩]]
    charStr := "λ**2 - 5*λ + 6"
    factorStr := "(λ - 2)*(λ - 3)"
    matrixStr := "Matrix([[2, 0], [0, 3]])"
    failMsg := none }

/-- Payload of the diagonal matrix run, spelled out. -/
def dDiag : EigenData :=
  { determinant := DispVal.cstr (ratStr (detOf inDiag))
    characteristic_polynomial := engDiag.charStr
    factored_polynomial := engDiag.factorStr
    eigen_objects := engDiag.eigenvals.map (fun p => mkEigenObject p.1 (engDiag.nullsp p.1) p.2)
    spectrum :=
      (engDiag.eigenvals.map (fun p => mkEigenObject p.1 (engDiag.nullsp p.1) p.2)).map
        (fun o => o.eigenvalue)
    eigenspaces := engDiag.eigenvals.map (fun p => mkEigenObject p.1 (engDiag.nullsp p.1) p.2)
    matrix_disp := engDiag.matrixStr }

/-- The diagonal matrix run succeeds with the payload above. -/
theorem calcDiag : calculate_eigen_data inDiag engDiag = CalcResult.success dDiag := rfl

/-- The engine output recorded in `engDiag` is the genuine eigenvalue data
of the diagonal matrix: its characteristic polynomial is (X - 2)(X - 3). -/
theorem isEigenvals_inDiag : IsEigenvals inDiag engDiag.eigenvals := by
  refine ⟨by simp [engDiag], by simp [engDiag], ?_⟩
  rw [charpolyFinTwo (toMatrixC inDiag)]
  have e00 : toMatrixC inDiag (0 : Fin 2) (0 : Fin 2) = ((2 : ℚ) : ℂ) := rfl
  have e01 : toMatrixC inDiag (0 : Fin 2) (1 : Fin 2) = ((0 : ℚ) : ℂ) := rfl
  have e10 : toMatrixC inDiag (1 : Fin 2) (0 : Fin 2) = ((0 : ℚ) : ℂ) := rfl
  have e11 : toMatrixC inDiag (1 : Fin 2) (1 : Fin 2) = ((3 : ℚ) : ℂ) := rfl
  rw [e00, e01, e10, e11]
  have h2 : GaussQ.toC ⟨2, 0⟩ = 2 := by
    rw [GaussQ.toC]
    norm_num
  have h3 : GaussQ.toC ⟨3, 0⟩ = 3 := by
    rw [GaussQ.toC]
    norm_num
  simp only [engDiag, List.map_cons, List.map_nil, List.prod_cons, List.prod_nil, h2, h3]
  norm_num
  simp only [map_ofNat]
  ring

/-- Witness for C6 on the diagonal matrix run: the determinant 6 equals the
product 2 * 3 of the eigenvalues. -/
theorem c6_det_eq_weighted_eigenvalue_product_witness :
    ((detOf inDiag : ℚ) : ℂ) =
        (engDiag.eigenvals.map (fun p => GaussQ.toC p.1 ^ p.2)).prod ∧
      dDiag.determinant = DispVal.cstr (ratStr (detOf inDiag)) :=
  c6_det_eq_weighted_eigenvalue_product inDiag engDiag dDiag isEigenvals_inDiag calcDiag

/-- Counterexample for C5 as stated: the identity matrix run succeeds, yet
its determinant field is the string produced by str(N(det)) on line 84 of
the source, not a numeric value. -/
theorem c5_counterexample :
    (∃ d, calculate_eigen_data inId engId = CalcResult.success d) ∧
      ¬(∀ d, calculate_eigen_data inId engId = CalcResult.success d →
          ∃ q : ℚ, d.determinant = DispVal.num q) := by
  refine ⟨⟨dId, calcId⟩, ?_⟩
  intro hnum
  obtain ⟨q, hq⟩ := hnum dId calcId
  exact DispVal.noConfusion hq

/-- C5 (amended): the determinant field of every successful result is the
textual decimal rendering of the numerically evaluated exact determinant,
never a raw number. -/
theorem c5_determinant_is_rendered_string :
    ∀ (input : List (List ℚ)) (eng : Engine) (d : EigenData),
      calculate_eigen_data input eng = CalcResult.success d →
      d.determinant = DispVal.cstr (ratStr (detOf input)) ∧
        ∀ q : ℚ, d.determinant ≠ DispVal.num q := by
  intro input eng d h
  obtain ⟨-, -, hd⟩ := success_shape input eng d h
  subst hd
  exact ⟨rfl, fun q hq => DispVal.noConfusion hq⟩

/-- Witness for C5 (amended) on the identity matrix run. -/
theorem c5_determinant_is_rendered_string_witness :
    dId.determinant = DispVal.cstr (ratStr (detOf inId)) ∧
      ∀ q : ℚ, dId.determinant ≠ DispVal.num q :=
  c5_determinant_is_rendered_string inId engId dId calcId

/-- Concrete run: the rotation-like matrix [[0, -1], [1, 0]] with complex
eigenvalues i and -i. -/
def inRot : List (List ℚ) := [[0, -1], [1, 0]]

/-- Engine output for the rotation matrix run: the conjugate pair of
eigenvalues i and -i with their one-dimensional complex eigenspaces. -/
def engRot : Engine :=
  { eigenvals := [(⟨0, 1⟩, 1), (⟨0, -1⟩, 1)]
    nullsp := fun z => if z.im = 1 then [[⟨0, 1⟩, ⟨1, 0⟩]] else [[⟨0, -1⟩, ⟨1, 0⟩]]
    charStr := "λ**2 + 1"
    factorStr := "λ**2 + 1"
    matrixStr := "Matrix([[0, -1], [1, 0]])"
    failMsg := none }

/-- Payload of the rotation matrix run, spelled out. -/
def dRot : EigenData :=
  { determinant := DispVal.cstr (ratStr (detOf inRot))
    characteristic_polynomial := engRot.charStr
    factored_polynomial := engRot.factorStr
    eigen_objects := engRot.eigenvals.map (fun p => mkEigenObject p.1 (engRot.nullsp p.1) p.2)
    spectrum :=
      (engRot.eigenvals.map (fun p => mkEigenObject p.1 (engRot.nullsp p.1) p.2)).map
        (fun o => o.eigenvalue)
    eigenspaces := engRot.eigenvals.map (fun p => mkEigenObject p.1 (engRot.nullsp p.1) p.2)
    matrix_disp := engRot.matrixStr }

/-- The rotation matrix run succeeds with the payload above. -/
theorem calcRot : calculate_eigen_data inRot engRot = CalcResult.success dRot := rfl

/-- The engine output recorded in `engRot` is the genuine eigenvalue data
of the rotation matrix: its characteristic polynomial is X^2 + 1 with the
conjugate roots i and -i. -/
theorem isEigenvals_inRot : IsEigenvals inRot engRot.eigenvals := by
  refine ⟨?_, by simp [engRot], ?_⟩
  · simp only [engRot]
    refine List.pairwise_cons.mpr ⟨?_, List.pairwise_singleton _ _⟩
    intro p hp
    simp only [List.mem_singleton] at hp
    subst hp
    decide
  · rw [charpolyFinTwo (toMatrixC inRot)]
    have e00 : toMatrixC inRot (0 : Fin 2) (0 : Fin 2) = ((0 : ℚ) : ℂ) := rfl
    have e01 : toMatrixC inRot (0 : Fin 2) (1 : Fin 2) = ((-1 : ℚ) : ℂ) := rfl
    have e10 : toMatrixC inRot (1 : Fin 2) (0 : Fin 2) = ((1 : ℚ) : ℂ) := rfl
    have e11 : toMatrixC inRot (1 : Fin 2) (1 : Fin 2) = ((0 : ℚ) : ℂ) := rfl
    rw [e00, e01, e10, e11]
    have ht1 : GaussQ.toC ⟨0, 1⟩ = Complex.I := by
      rw [GaussQ.toC]
      norm_num
    have ht2 : GaussQ.toC ⟨0, -1⟩ = -Complex.I := by
      rw [GaussQ.toC]
      norm_num
    simp only [engRot, List.map_cons, List.map_nil, List.prod_cons, List.prod_nil, ht1, ht2]
    have hI2 : (Polynomial.C Complex.I : Polynomial ℂ) ^ 2 = -1 := by
      rw [← map_pow, Complex.I_sq, map_neg, map_one]
    rw [map_neg]
    norm_num
    linear_combination hI2

/-- C7: for well-formed pipeline data (real-flagged entries carry float
eigenvalues, as the pipeline guarantees), the renderer returns the absence
marker exactly when no entry yields a drawable real vector; in particular,
complex-flagged entries are skipped, and the end-to-end run on the rotation
matrix [[0, -1], [1, 0]] with its genuine eigenvalue pair i, -i succeeds
and renders the absence marker. -/
theorem c7_absence_marker_iff_no_drawable :
    (∀ data : EigenData,
        (∀ o ∈ data.eigen_objects, o.is_complex = false →
          ∃ q, o.eigenvalue = DispVal.num q) →
        (generate_eigen_svg data = none ↔
          ∀ o ∈ data.eigen_objects, entryDrawable o = false)) ∧
      IsEigenvals inRot engRot.eigenvals ∧
      svgOfResult (calculate_eigen_data inRot engRot) = some none := by
  refine ⟨?_, isEigenvals_inRot, ?_⟩
  · intro data _
    exact generate_eigen_svg_none_iff data
  · rw [calcRot, svgOfResult]
    have hnone : generate_eigen_svg dRot = none := by
      rw [generate_eigen_svg_none_iff]
      decide
    rw [hnone]

/-- Witness for C7 at the rotation matrix payload: both entries are flagged
complex, so nothing is drawable and the diagram is absent. -/
theorem c7_absence_marker_iff_no_drawable_witness :
    generate_eigen_svg dRot = none := by
  refine (c7_absence_marker_iff_no_drawable.1 dRot ?_).mpr (by decide)
  intro o ho h
  have hall : ∀ o ∈ dRot.eigen_objects, o.is_complex = true := by decide
  rw [hall o ho] at h
  exact Bool.noConfusion h
